import Mathlib

/-!
Verification of the contextual-retrieval notebook
(`multimodal-understanding/repeatable-patterns/09-contextual-retrieval-with-llama-index/
contextual_retrieval.ipynb`).

Shallow embedding of the three pieces of logic defined in the notebook:

* `LlamaIndexEmbeddingBM25RerankerRetriever._retrieve` — the hybrid
  vector + BM25 + rerank retriever;
* `LlamaIndexContextualEnrichment.__call__` — the contextual enrichment
  transform (per-document fetch cache, prompt construction, metadata update);
* `llama_index_evaluation_print_results` — the metric-aggregation helper.

External collaborators (the vector retriever, the BM25 retriever, the
reranker, `requests.get`, `html2text.html2text`, `Settings.llm.complete`)
are passed in as function parameters, exactly as the notebook code treats
them as black boxes.  Python exceptions are modelled with `Except`.
Scores are modelled as rationals.
-/

namespace ContextualRetrieval

/-- A llama-index `NodeWithScore`: a retrieved chunk with its id, its text
and a relevance score. -/
structure NodeWithScore where
  node_id : String
  text : String
  score : ℚ
  deriving Repr, DecidableEq

/-- `LLAMA_INDEX_RETRIEVAL_TOP_K` from the notebook's configuration cell. -/
def LLAMA_INDEX_RETRIEVAL_TOP_K : ℕ := 5

/-- `LLAMA_INDEX_RETRIEVAL_EVALUATION_METRICS` from the notebook's
configuration cell. -/
def LLAMA_INDEX_RETRIEVAL_EVALUATION_METRICS : List String :=
  ["hit_rate", "mrr", "recall"]

/-- `LlamaIndexEmbeddingBM25RerankerRetriever._retrieve`.

```python
vector_nodes = self._vector_retriever.retrieve(query_bundle)
bm25_nodes = self.bm25_retriever.retrieve(query_bundle)
vector_nodes.extend(bm25_nodes)
retrieved_nodes = self.reranker.postprocess_nodes(vector_nodes, query_bundle)
return retrieved_nodes
```

The two sub-retrievers and the reranker are the instance attributes
`_vector_retriever`, `bm25_retriever` and `reranker`; here they are explicit
functional parameters.  `list.extend` is list concatenation. -/
def hybridRetrieve (vector_retriever bm25_retriever : String → List NodeWithScore)
    (reranker : List NodeWithScore → String → List NodeWithScore)
    (query_bundle : String) : List NodeWithScore :=
  let vector_nodes := vector_retriever query_bundle
  let bm25_nodes := bm25_retriever query_bundle
  let combined := vector_nodes ++ bm25_nodes
  reranker combined query_bundle

/-- Number of occurrences of chunk id `i` in a candidate list. -/
def countId (l : List NodeWithScore) (i : String) : ℕ :=
  l.countP (fun n => n.node_id = i)

theorem countId_append (a b : List NodeWithScore) (i : String) :
    countId (a ++ b) i = countId a i + countId b i := by
  simp [countId, List.countP_append]

/-- C1: the hybrid retriever runs both sub-retrievals unconditionally,
concatenates the two candidate lists without deduplicating by chunk id
(per-id multiplicities add up), and returns the reranker's output on the
concatenated list unchanged. -/
theorem hybrid_retrieve_concat_no_dedup
    (vector_retriever bm25_retriever : String → List NodeWithScore)
    (reranker : List NodeWithScore → String → List NodeWithScore)
    (query_bundle : String) :
    hybridRetrieve vector_retriever bm25_retriever reranker query_bundle =
      reranker (vector_retriever query_bundle ++ bm25_retriever query_bundle)
        query_bundle ∧
    (∀ i : String,
      countId (vector_retriever query_bundle ++ bm25_retriever query_bundle) i =
        countId (vector_retriever query_bundle) i +
          countId (bm25_retriever query_bundle) i) := by
  exact ⟨rfl, fun i => countId_append _ _ i⟩

/-! ### The reranker (spec-modelled)

`ColbertRerank` is a third-party llama-index postprocessor, not code of this
repository; the notebook only configures it
(`ColbertRerank(top_n=LLAMA_INDEX_RETRIEVAL_TOP_K, ...)`, notebook cell 3)
and calls `postprocess_nodes`. -/

/-- Comparison used by the modelled reranker: higher score first, ties
broken by the candidate's position in the input list (stable sort). -/
def rerankRel (a b : ℕ × NodeWithScore) : Prop :=
  b.2.score < a.2.score ∨ (a.2.score = b.2.score ∧ a.1 ≤ b.1)

instance : DecidableRel rerankRel := fun a b => by
  unfold rerankRel; infer_instance

instance : IsTotal (ℕ × NodeWithScore) rerankRel where
  total a b := by
    rcases lt_trichotomy a.2.score b.2.score with h | h | h
    · exact Or.inr (Or.inl h)
    · rcases Nat.le_total a.1 b.1 with h' | h'
      · exact Or.inl (Or.inr ⟨h, h'⟩)
      · exact Or.inr (Or.inr ⟨h.symm, h'⟩)
    · exact Or.inl (Or.inl h)

instance : IsTrans (ℕ × NodeWithScore) rerankRel where
  trans a b c hab hbc := by
    rcases hab with hab | ⟨hab, hab'⟩
    · rcases hbc with hbc | ⟨hbc, _⟩
      · exact Or.inl (hbc.trans hab)
      · exact Or.inl (hbc ▸ hab)
    · rcases hbc with hbc | ⟨hbc, hbc'⟩
      · exact Or.inl (hab ▸ hbc)
      · exact Or.inr ⟨hab.trans hbc, hab'.trans hbc'⟩

/-- Modelled from the spec: the `ColbertRerank.postprocess_nodes` internals
are not under `src/` (third-party library); per the spec the reranker
"scores (query, chunk) pairs", "reorders and truncates to top-N", with
"ties broken by original candidate order (stable sort)".  Candidates are
tagged with their input position, rescored by the cross-encoder `score`,
stably sorted by descending score, and truncated to `top_n`.  The tagged
intermediate list is exposed for stating the stability property. -/
def colbertRerankIndexed (score : String → String → ℚ) (top_n : ℕ)
    (nodes : List NodeWithScore) (query : String) : List (ℕ × NodeWithScore) :=
  let rescored := nodes.map (fun n => { n with score := score query n.text })
  (List.insertionSort rerankRel rescored.enum).take top_n

/-- Modelled from the spec: the reranker's output, dropping the internal
position tags.  See `colbertRerankIndexed`. -/
def colbertPostprocessNodes (score : String → String → ℚ) (top_n : ℕ)
    (nodes : List NodeWithScore) (query : String) : List NodeWithScore :=
  (colbertRerankIndexed score top_n nodes query).map Prod.snd

theorem colbertRerankIndexed_sorted (score : String → String → ℚ) (top_n : ℕ)
    (nodes : List NodeWithScore) (query : String) :
    (colbertRerankIndexed score top_n nodes query).Pairwise rerankRel := by
  unfold colbertRerankIndexed
  exact ((List.sorted_insertionSort rerankRel _).sublist (List.take_sublist _ _))

/-- C7: with the reranker configured at `top_n = LLAMA_INDEX_RETRIEVAL_TOP_K`,
the hybrid retriever's output has length at most `LLAMA_INDEX_RETRIEVAL_TOP_K`,
its scores are non-increasing from first to last, and candidates whose
reranker scores tie appear in the order they held in the concatenated
candidate list (stable sort). -/
theorem hybrid_retrieve_topk_sorted_stable
    (score : String → String → ℚ)
    (vector_retriever bm25_retriever : String → List NodeWithScore)
    (query : String) :
    (hybridRetrieve vector_retriever bm25_retriever
        (colbertPostprocessNodes score LLAMA_INDEX_RETRIEVAL_TOP_K)
        query).length ≤ LLAMA_INDEX_RETRIEVAL_TOP_K ∧
    (hybridRetrieve vector_retriever bm25_retriever
        (colbertPostprocessNodes score LLAMA_INDEX_RETRIEVAL_TOP_K)
        query).Pairwise (fun a b => b.score ≤ a.score) ∧
    (colbertRerankIndexed score LLAMA_INDEX_RETRIEVAL_TOP_K
        (vector_retriever query ++ bm25_retriever query) query).Pairwise
      (fun a b => a.2.score = b.2.score → a.1 ≤ b.1) := by
  refine ⟨?_, ?_, ?_⟩
  · show ((colbertRerankIndexed _ _ _ _).map Prod.snd).length ≤ _
    simp only [List.length_map]
    unfold colbertRerankIndexed
    exact (List.length_take _ _).le.trans (min_le_left _ _)
  · show ((colbertRerankIndexed _ _ _ _).map Prod.snd).Pairwise _
    rw [List.pairwise_map]
    refine (colbertRerankIndexed_sorted score _ _ _).imp ?_
    rintro a b (h | ⟨h, _⟩)
    · exact h.le
    · exact h.ge
  · refine (colbertRerankIndexed_sorted score _ _ _).imp ?_
    rintro a b (h | ⟨h, h'⟩) heq
    · exact absurd heq (ne_of_gt h)
    · exact h'

/-! ### Determinism of `_retrieve` (C8)

`_retrieve` holds no mutable state of its own; it only calls the two
sub-retrievers and the reranker.  To state idempotence without assuming the
collaborators are pure, each collaborator is given explicit internal state
which its call may update, and `_retrieve` is the same three calls with the
states threaded through. -/

/-- `LlamaIndexEmbeddingBM25RerankerRetriever._retrieve` with explicitly
stateful collaborators: the same three calls as `hybridRetrieve`, each call
returning the collaborator's possibly-updated internal state alongside its
result. -/
def hybridRetrieveSt {V B R : Type}
    (vector_retriever : V → String → List NodeWithScore × V)
    (bm25_retriever : B → String → List NodeWithScore × B)
    (reranker : R → List NodeWithScore → String → List NodeWithScore × R)
    (st : V × B × R) (query : String) :
    List NodeWithScore × (V × B × R) :=
  let v := vector_retriever st.1 query
  let b := bm25_retriever st.2.1 query
  let r := reranker st.2.2 (v.1 ++ b.1) query
  (r.1, (v.2, b.2, r.2))

/-- C8: if a first run of `_retrieve` leaves the sub-retrievers and the
reranker unchanged (their states after the run equal their states before),
then a second run with the identical query returns the identical ranked
sequence — same nodes, same scores, same order — and again the same states. -/
theorem hybrid_retrieve_idempotent {V B R : Type}
    (vector_retriever : V → String → List NodeWithScore × V)
    (bm25_retriever : B → String → List NodeWithScore × B)
    (reranker : R → List NodeWithScore → String → List NodeWithScore × R)
    (st st' : V × B × R) (query : String) (out : List NodeWithScore)
    (h1 : hybridRetrieveSt vector_retriever bm25_retriever reranker st query =
      (out, st'))
    (h2 : st' = st) :
    hybridRetrieveSt vector_retriever bm25_retriever reranker st' query =
      (out, st') := by
  rw [h2, h1, h2]

/-- Witness for C8 at a concrete instantiation: stateless (`Unit`-state)
collaborators returning fixed candidate lists. -/
theorem hybrid_retrieve_idempotent_witness :
    hybridRetrieveSt
      (fun (_ : Unit) (_ : String) => ([⟨"a", "ta", 1⟩], ()))
      (fun (_ : Unit) (_ : String) => ([⟨"b", "tb", 2⟩], ()))
      (fun (_ : Unit) (l : List NodeWithScore) (_ : String) => (l, ()))
      ((), (), ()) "q" = ([⟨"a", "ta", 1⟩, ⟨"b", "tb", 2⟩], ((), (), ())) :=
  hybrid_retrieve_idempotent _ _ _ ((), (), ()) ((), (), ()) "q"
    [⟨"a", "ta", 1⟩, ⟨"b", "tb", 2⟩] rfl rfl

/-! ### `LlamaIndexContextualEnrichment.__call__`

The transform iterates over the input nodes; for each node it deep-copies
the node, scans the copy's relationship map for the `NodeRelationship.SOURCE`
entry, records the source URL in the loop-scoped variable `source_url`,
lazily fetches + html2text-converts the document into the run-local cache
`web_page_content`, builds the situating prompt from the whole document and
the chunk text, calls `Settings.llm.complete(prompt).text`, and stores the
result under `metadata['context']` of the copy.

Nodes are modelled with their id, text, metadata dict (association list in
insertion order) and relationship dict (list of `(str(kind), node_id)`
pairs).  `requests.get(url).text` is `fetch : String → Except String String`
(`.error` = the request raised), `html2text.html2text` is
`h2t : String → String`, and `Settings.llm.complete(·).text` is
`llm : String → String`.  Python's `deepcopy` is the identity on immutable
Lean values.  The `print` progress line has no observable effect and is
omitted. -/

/-- A llama-index node as the enrichment transform sees it. -/
structure Node where
  node_id : String
  text : String
  metadata : List (String × String)
  relationships : List (String × String)
  deriving Repr, DecidableEq

/-- Python dict assignment `d[k] = v` on an association list whose keys are
unique: overwrite the entry for `k` in place if present, else append. -/
def setKey : List (String × String) → String → String → List (String × String)
  | [], k, v => [(k, v)]
  | (k', v') :: rest, k, v =>
    if k' = k then (k, v) :: rest else (k', v') :: setKey rest k v

/-- The error outcomes `__call__` can raise, as Python exceptions:
`fetchError` when `requests.get` raises while fetching a source document;
`nameError` when `whole_document = web_page_content[source_url]` reads
`source_url` before any node ever had a SOURCE relationship (Python
`NameError`); `keyError` when the cache lookup itself misses. -/
inductive EnrichErr where
  | fetchError (url : String) (msg : String)
  | nameError
  | keyError (url : String)
  deriving Repr, DecidableEq

/-- The mutable state of one `__call__` run: the `web_page_content` cache
(association list in insertion order), the loop-carried `source_url`
variable (`none` = not yet assigned), and the log of URLs passed to
`requests.get`, in call order (instrumentation for the fetch-count claim;
the Python code has no such log). -/
structure EnrichState where
  web_page_content : List (String × String)
  source_url : Option String
  fetchLog : List String
  deriving Repr, DecidableEq

/-- The inner `for r in new_node.relationships` loop: on each
`NodeRelationship.SOURCE` entry, set `source_url` and, if the URL is not
cached, call `requests.get` and store the html2text conversion.
(The code writes the raw body and immediately overwrites it with its
html2text conversion; the net cache entry is the converted text.) -/
def processRels (fetch : String → Except String String) (h2t : String → String) :
    EnrichState → List (String × String) → Except EnrichErr EnrichState
  | st, [] => .ok st
  | st, (kind, nid) :: rest =>
    if kind = "NodeRelationship.SOURCE" then
      let st1 := { st with source_url := some nid }
      if (st1.web_page_content.lookup nid).isSome then
        processRels fetch h2t st1 rest
      else
        match fetch nid with
        | .error msg => .error (.fetchError nid msg)
        | .ok raw =>
          processRels fetch h2t
            { st1 with
              web_page_content := st1.web_page_content ++ [(nid, h2t raw)],
              fetchLog := st1.fetchLog ++ [nid] } rest
    else
      processRels fetch h2t st rest

/-- The prompt f-string of `__call__`, with `{whole_document}` and
`{new_node.text}` interpolated. -/
def contextPrompt (whole_document chunk_text : String) : String :=
  "\n                ## Here is the source document:\n                <document>\n                "
    ++ whole_document
    ++ "\n                </document>\n                ## Here is the chunk we want to situate within the whole document\n                <chunk>\n                "
    ++ chunk_text
    ++ "\n                </chunk>\n                ## Your role\n                You are a financial document analysis specialist with expertise in annual shareholder letters,\n                particularly those from Amazon.\n                ## Your Task\n                Your task is to analyze the <chunk> from an Amazon shareholder\n                letter written by Amazon CEO and enhance its searchability and context.\n                Please give a short succinct context to situate this chunk within the overall document for the purposes of improving search retrieval of the chunk. \n                Answer only with the succinct context and nothing else.\n            "

/-- One iteration of the `for node in nodes` loop body: process the copy's
relationships, read `whole_document = web_page_content[source_url]`, build
the prompt, call the model, and set `metadata['context']` on the copy. -/
def enrichNode (fetch : String → Except String String) (h2t llm : String → String)
    (st : EnrichState) (node : Node) : Except EnrichErr (Node × EnrichState) :=
  match processRels fetch h2t st node.relationships with
  | .error e => .error e
  | .ok st' =>
    match st'.source_url with
    | none => .error .nameError
    | some u =>
      match st'.web_page_content.lookup u with
      | none => .error (.keyError u)
      | some whole_document =>
        let prompt := contextPrompt whole_document node.text
        .ok ({ node with metadata := setKey node.metadata "context" (llm prompt) }, st')

/-- The `for node in nodes` loop, accumulating `nodes_new`; an exception in
any iteration propagates and aborts the loop. -/
def enrichGo (fetch : String → Except String String) (h2t llm : String → String) :
    List Node → EnrichState → Except EnrichErr (List Node × EnrichState)
  | [], st => .ok ([], st)
  | n :: ns, st =>
    match enrichNode fetch h2t llm st n with
    | .error e => .error e
    | .ok (n', st1) =>
      match enrichGo fetch h2t llm ns st1 with
      | .error e => .error e
      | .ok (rest, st2) => .ok (n' :: rest, st2)

/-- `LlamaIndexContextualEnrichment.__call__`, also exposing the final run
state: the run starts with an empty `web_page_content` cache and with
`source_url` unassigned. -/
def contextualEnrichmentRun (fetch : String → Except String String)
    (h2t llm : String → String) (nodes : List Node) :
    Except EnrichErr (List Node × EnrichState) :=
  enrichGo fetch h2t llm nodes ⟨[], none, []⟩

/-- `LlamaIndexContextualEnrichment.__call__`: the returned `nodes_new`. -/
def contextualEnrichment (fetch : String → Except String String)
    (h2t llm : String → String) (nodes : List Node) : Except EnrichErr (List Node) :=
  (contextualEnrichmentRun fetch h2t llm nodes).map Prod.fst

/-! ### Helper lemmas about the metadata dict and the cache -/

theorem lookup_setKey_self (m : List (String × String)) (k v : String) :
    (setKey m k v).lookup k = some v := by
  induction m with
  | nil => simp [setKey, List.lookup_cons]
  | cons p rest ih =>
    obtain ⟨k', v'⟩ := p
    by_cases h : k' = k
    · simp [setKey, h, List.lookup_cons]
    · have hne : ¬k = k' := fun hk => h hk.symm
      simp [setKey, if_neg h, List.lookup_cons, beq_false_of_ne hne, ih]

theorem lookup_append_single_isSome (c : List (String × String)) (k v u : String) :
    ((c ++ [(k, v)]).lookup u).isSome ↔ ((c.lookup u).isSome ∨ u = k) := by
  induction c with
  | nil =>
    by_cases h : u = k
    · simp [List.lookup_cons, h]
    · simp [List.lookup_cons, beq_false_of_ne h, h]
  | cons p rest ih =>
    obtain ⟨k', v'⟩ := p
    by_cases h : u = k'
    · simp [List.lookup_cons, h]
    · simp [List.lookup_cons, beq_false_of_ne h, ih]

/-- The run-state invariant tying the fetch log to the cache: no URL is
fetched twice, and the URLs fetched so far are exactly the cached keys. -/
def EnrichInv (st : EnrichState) : Prop :=
  st.fetchLog.Nodup ∧
    ∀ u, u ∈ st.fetchLog ↔ (st.web_page_content.lookup u).isSome

theorem enrichInv_init : EnrichInv ⟨[], none, []⟩ := by
  constructor
  · exact List.nodup_nil
  · intro u; simp [List.lookup]

theorem processRels_inv (fetch : String → Except String String)
    (h2t : String → String) (rels : List (String × String)) :
    ∀ st st' : EnrichState, processRels fetch h2t st rels = .ok st' →
      EnrichInv st → EnrichInv st' := by
  induction rels with
  | nil =>
    intro st st' h hinv
    simp only [processRels] at h
    cases h
    exact hinv
  | cons head rest ih =>
    intro st st' h hinv
    obtain ⟨kind, nid⟩ := head
    simp only [processRels] at h
    by_cases hk : kind = "NodeRelationship.SOURCE"
    · rw [if_pos hk] at h
      by_cases hc :
          ((({ st with source_url := some nid } : EnrichState).web_page_content.lookup
            nid).isSome : Prop)
      · rw [if_pos hc] at h
        exact ih _ _ h ⟨hinv.1, hinv.2⟩
      · rw [if_neg hc] at h
        cases hf : fetch nid with
        | error msg => rw [hf] at h; cases h
        | ok raw =>
          rw [hf] at h
          refine ih _ _ h ?_
          have hnid : nid ∉ st.fetchLog := by
            intro hmem
            exact hc ((hinv.2 nid).mp hmem)
          constructor
          · simpa [List.nodup_append] using ⟨hinv.1, hnid⟩
          · intro u
            simp only [List.mem_append, List.mem_singleton,
              lookup_append_single_isSome]
            exact or_congr (hinv.2 u) Iff.rfl
    · rw [if_neg hk] at h
      exact ih _ _ h hinv

theorem processRels_cache_ext (fetch : String → Except String String)
    (h2t : String → String) (rels : List (String × String)) :
    ∀ st st' : EnrichState, processRels fetch h2t st rels = .ok st' →
      ∃ ext, st'.web_page_content = st.web_page_content ++ ext := by
  induction rels with
  | nil =>
    intro st st' h
    simp only [processRels] at h
    cases h
    exact ⟨[], by simp⟩
  | cons head rest ih =>
    intro st st' h
    obtain ⟨kind, nid⟩ := head
    simp only [processRels] at h
    by_cases hk : kind = "NodeRelationship.SOURCE"
    · rw [if_pos hk] at h
      by_cases hc :
          ((({ st with source_url := some nid } : EnrichState).web_page_content.lookup
            nid).isSome : Prop)
      · rw [if_pos hc] at h
        obtain ⟨ext, hext⟩ := ih { st with source_url := some nid } st' h
        exact ⟨ext, hext⟩
      · rw [if_neg hc] at h
        cases hf : fetch nid with
        | error msg => rw [hf] at h; cases h
        | ok raw =>
          rw [hf] at h
          obtain ⟨ext, hext⟩ :=
            ih { st with
                  source_url := some nid,
                  web_page_content := st.web_page_content ++ [(nid, h2t raw)],
                  fetchLog := st.fetchLog ++ [nid] } st' h
          exact ⟨(nid, h2t raw) :: ext, by simpa using hext⟩
    · rw [if_neg hk] at h
      exact ih st st' h

theorem enrichNode_state (fetch : String → Except String String)
    (h2t llm : String → String) (st : EnrichState) (node : Node)
    (n' : Node) (st' : EnrichState)
    (h : enrichNode fetch h2t llm st node = .ok (n', st')) :
    processRels fetch h2t st node.relationships = .ok st' ∧
      ∃ doc,
        n' = { node with
          metadata := setKey node.metadata "context"
            (llm (contextPrompt doc node.text)) } := by
  unfold enrichNode at h
  cases hp : processRels fetch h2t st node.relationships with
  | error e => rw [hp] at h; cases h
  | ok p =>
    rw [hp] at h
    dsimp only at h
    cases hsu : p.source_url with
    | none => rw [hsu] at h; dsimp only at h; cases h
    | some u =>
      rw [hsu] at h
      dsimp only at h
      cases hl : p.web_page_content.lookup u with
      | none => rw [hl] at h; cases h
      | some doc =>
        rw [hl] at h
        cases h
        exact ⟨rfl, doc, rfl⟩

theorem enrichNode_inv (fetch : String → Except String String)
    (h2t llm : String → String) (st : EnrichState) (node : Node)
    (n' : Node) (st' : EnrichState)
    (h : enrichNode fetch h2t llm st node = .ok (n', st'))
    (hinv : EnrichInv st) : EnrichInv st' :=
  processRels_inv fetch h2t node.relationships st st'
    (enrichNode_state fetch h2t llm st node n' st' h).1 hinv

theorem enrichGo_inv (fetch : String → Except String String)
    (h2t llm : String → String) (nodes : List Node) :
    ∀ st out st', enrichGo fetch h2t llm nodes st = .ok (out, st') →
      EnrichInv st → EnrichInv st' := by
  induction nodes with
  | nil =>
    intro st out st' h hinv
    simp only [enrichGo] at h
    cases h
    exact hinv
  | cons n ns ih =>
    intro st out st' h hinv
    unfold enrichGo at h
    cases he : enrichNode fetch h2t llm st n with
    | error e => rw [he] at h; cases h
    | ok r =>
      obtain ⟨n', st1⟩ := r
      rw [he] at h
      dsimp only at h
      cases hg : enrichGo fetch h2t llm ns st1 with
      | error e => rw [hg] at h; cases h
      | ok rest =>
        obtain ⟨restNodes, st2⟩ := rest
        rw [hg] at h
        cases h
        exact ih st1 restNodes _ hg
          (enrichNode_inv fetch h2t llm st n n' st1 he hinv)

/-- The shape of every output node: a copy of the corresponding input node
whose metadata got `context` set to the raw model response for some fetched
document text. -/
def EnrichedFrom (llm : String → String) (node n' : Node) : Prop :=
  ∃ doc,
    n' = { node with
      metadata := setKey node.metadata "context"
        (llm (contextPrompt doc node.text)) }

theorem enrichGo_forall₂ (fetch : String → Except String String)
    (h2t llm : String → String) (nodes : List Node) :
    ∀ st out st', enrichGo fetch h2t llm nodes st = .ok (out, st') →
      List.Forall₂ (EnrichedFrom llm) nodes out := by
  induction nodes with
  | nil =>
    intro st out st' h
    simp only [enrichGo] at h
    cases h
    exact List.Forall₂.nil
  | cons n ns ih =>
    intro st out st' h
    unfold enrichGo at h
    cases he : enrichNode fetch h2t llm st n with
    | error e => rw [he] at h; cases h
    | ok r =>
      obtain ⟨n', st1⟩ := r
      rw [he] at h
      dsimp only at h
      cases hg : enrichGo fetch h2t llm ns st1 with
      | error e => rw [hg] at h; cases h
      | ok rest =>
        obtain ⟨restNodes, st2⟩ := rest
        rw [hg] at h
        cases h
        exact List.Forall₂.cons
          (enrichNode_state fetch h2t llm st n n' st1 he).2
          (ih st1 restNodes _ hg)

/-! ### Concrete fixtures used by witnesses and counterexamples -/

/-- A chunk whose relationship dict holds a SOURCE entry for document
`"u1"`. -/
def nodeA : Node := ⟨"n1", "t1", [], [("NodeRelationship.SOURCE", "u1")]⟩

/-- A second chunk with the same SOURCE document `"u1"`. -/
def nodeA2 : Node := ⟨"n3", "t3", [], [("NodeRelationship.SOURCE", "u1")]⟩

/-- A chunk with an empty relationship dict: its source-document
back-reference does not resolve. -/
def nodeB : Node := ⟨"n2", "t2", [], []⟩

/-- A fetcher that serves document `"u1"` with body `"D1"` and fails on
everything else. -/
def fetchD1 : String → Except String String :=
  fun u => if u = "u1" then .ok "D1" else .error "connection error"

/-- A fetcher whose every request raises. -/
def fetchDown : String → Except String String :=
  fun u => .error ("connection error: " ++ u)

/-! ### C2 — enrichment output shape -/

/-- C2 (amended): on a successful run the Enricher returns exactly as many
chunks as it was given, pairwise in input order, each output chunk keeping
the input chunk's id, text and relationships, with a `"context"` metadata
value that equals a model response — hence non-empty whenever the model
never returns an empty string.  (The unamended claim's unconditional
non-emptiness fails: see the counterexample.) -/
theorem enrichment_preserves_chunks_and_sets_context
    (fetch : String → Except String String) (h2t llm : String → String)
    (nodes out : List Node) (st : EnrichState)
    (hrun : contextualEnrichmentRun fetch h2t llm nodes = .ok (out, st))
    (hllm : ∀ p, llm p ≠ "") :
    out.length = nodes.length ∧
    List.Forall₂ (fun node n' =>
      n'.node_id = node.node_id ∧ n'.text = node.text ∧
      n'.relationships = node.relationships ∧
      ∃ v, n'.metadata.lookup "context" = some v ∧ v ≠ "") nodes out := by
  have h2 := enrichGo_forall₂ fetch h2t llm nodes ⟨[], none, []⟩ out st hrun
  refine ⟨(List.Forall₂.length_eq h2).symm, h2.imp ?_⟩
  rintro node n' ⟨doc, rfl⟩
  exact ⟨rfl, rfl, rfl,
    llm (contextPrompt doc node.text),
    lookup_setKey_self node.metadata "context" _, hllm _⟩

/-- Witness for C2 (amended) at a concrete input: one chunk, a fetcher
serving `"D1"`, `html2text` the identity, and a model that always answers
`"ctx"`. -/
theorem enrichment_preserves_chunks_and_sets_context_witness :
    ([Node.mk "n1" "t1" [("context", "ctx")]
        [("NodeRelationship.SOURCE", "u1")]] : List Node).length =
      ([nodeA] : List Node).length ∧
    List.Forall₂ (fun node n' =>
      n'.node_id = node.node_id ∧ n'.text = node.text ∧
      n'.relationships = node.relationships ∧
      ∃ v, n'.metadata.lookup "context" = some v ∧ v ≠ "") [nodeA]
      [Node.mk "n1" "t1" [("context", "ctx")]
        [("NodeRelationship.SOURCE", "u1")]] :=
  enrichment_preserves_chunks_and_sets_context fetchD1 id (fun _ => "ctx")
    [nodeA] _ ⟨[("u1", "D1")], some "u1", ["u1"]⟩ rfl
    (fun p => by simp)

/-- C2 counterexample: with a model that returns the empty string, the run
succeeds and stores an empty `"context"` value, so the claim's unconditional
"non-empty context metadata value" is false on the code. -/
theorem enrichment_context_can_be_empty :
    contextualEnrichment fetchD1 id (fun _ => "") [nodeA] =
      .ok [Node.mk "n1" "t1" [("context", "")]
        [("NodeRelationship.SOURCE", "u1")]] ∧
    ¬ (∀ out, contextualEnrichment fetchD1 id (fun _ => "") [nodeA] = .ok out →
        ∀ nd ∈ out, ∀ v, nd.metadata.lookup "context" = some v → v ≠ "") := by
  refine ⟨rfl, fun hall => ?_⟩
  exact hall [Node.mk "n1" "t1" [("context", "")]
      [("NodeRelationship.SOURCE", "u1")]] rfl _ (List.mem_singleton.mpr rfl)
    "" rfl rfl

/-! ### C3 — the stored context value is the raw model response -/

/-- C3 (amended): the Enricher stores the generation model's response
verbatim under metadata key `"context"` — `metadata['context'] =
Settings.llm.complete(prompt).text` applies no trimming — so the stored
value carries whatever leading/trailing whitespace the model returned.
(The unamended claim's trimming is refuted by the counterexample.) -/
theorem enrichment_stores_raw_model_response
    (fetch : String → Except String String) (h2t llm : String → String)
    (nodes out : List Node) (st : EnrichState)
    (hrun : contextualEnrichmentRun fetch h2t llm nodes = .ok (out, st)) :
    List.Forall₂ (fun node n' =>
      ∃ doc, n'.metadata.lookup "context" =
        some (llm (contextPrompt doc node.text))) nodes out := by
  refine (enrichGo_forall₂ fetch h2t llm nodes ⟨[], none, []⟩ out st hrun).imp ?_
  rintro node n' ⟨doc, rfl⟩
  exact ⟨doc, lookup_setKey_self node.metadata "context" _⟩

/-- Witness for C3 (amended): a model answering `" resp "` has exactly
`" resp "` — whitespace included — stored as the context value. -/
theorem enrichment_stores_raw_model_response_witness :
    List.Forall₂ (fun node n' =>
      ∃ doc, n'.metadata.lookup "context" =
        some ((fun _ => " resp ") (contextPrompt doc node.text))) [nodeA]
      [Node.mk "n1" "t1" [("context", " resp ")]
        [("NodeRelationship.SOURCE", "u1")]] :=
  enrichment_stores_raw_model_response fetchD1 id (fun _ => " resp ")
    [nodeA] _ ⟨[("u1", "D1")], some "u1", ["u1"]⟩ rfl

/-- C3 counterexample: with a model that answers `" x "`, the stored
context value is `" x "` itself — its first character is a whitespace
character — so, as stated, "the stored value never has leading or trailing
whitespace" is false on the code. -/
theorem enrichment_context_not_trimmed :
    contextualEnrichment fetchD1 id (fun _ => " x ") [nodeA] =
      .ok [Node.mk "n1" "t1" [("context", " x ")]
        [("NodeRelationship.SOURCE", "u1")]] ∧
    (" x ").data.head? = some ' ' ∧ (' ').isWhitespace = true ∧
    ¬ (∀ out, contextualEnrichment fetchD1 id (fun _ => " x ") [nodeA] =
          .ok out →
        ∀ nd ∈ out, ∀ v, nd.metadata.lookup "context" = some v →
          v.data.head? ≠ some ' ') := by
  refine ⟨rfl, rfl, rfl, fun hall => ?_⟩
  exact hall [Node.mk "n1" "t1" [("context", " x ")]
      [("NodeRelationship.SOURCE", "u1")]] rfl _ (List.mem_singleton.mpr rfl)
    " x " rfl rfl

/-! ### C4 — a fetch failure aborts the whole batch -/

/-- C4 (amended): when `requests.get` raises while fetching a chunk's
source document, the exception propagates out of `__call__`: the whole
batch aborts with that error, no output list is produced, and the remaining
chunks are not enriched.  (The claim's per-chunk containment is refuted by
the counterexample.)  Stated for a failing document of the first chunk of
the batch, where the cache is still empty. -/
theorem fetch_failure_aborts_whole_batch
    (fetch : String → Except String String) (h2t llm : String → String)
    (u msg : String) (n : Node) (ns : List Node)
    (hrel : n.relationships = [("NodeRelationship.SOURCE", u)])
    (hfetch : fetch u = .error msg) :
    contextualEnrichment fetch h2t llm (n :: ns) =
      .error (.fetchError u msg) := by
  simp [contextualEnrichment, contextualEnrichmentRun, enrichGo, enrichNode,
    processRels, hrel, hfetch, List.lookup, Except.map]

/-- Witness for C4 (amended): an always-raising fetcher on a two-chunk
batch. -/
theorem fetch_failure_aborts_whole_batch_witness :
    contextualEnrichment fetchDown id (fun p => p) [nodeA, nodeB] =
      .error (.fetchError "u1" "connection error: u1") :=
  fetch_failure_aborts_whole_batch fetchDown id (fun p => p) "u1"
    "connection error: u1" nodeA [nodeB] rfl rfl

/-- C4 counterexample: with a failing fetch on the first chunk's document,
`__call__` returns no output at all — there is no per-chunk `FetchError`
with the remaining chunks still enriched, contrary to the claim. -/
theorem fetch_failure_no_partial_output :
    contextualEnrichment fetchDown id (fun p => p) [nodeA, nodeB] =
      .error (.fetchError "u1" "connection error: u1") ∧
    ∀ out, contextualEnrichment fetchDown id (fun p => p) [nodeA, nodeB] ≠
      .ok out := by
  have h1 : contextualEnrichment fetchDown id (fun p => p) [nodeA, nodeB] =
      .error (.fetchError "u1" "connection error: u1") := rfl
  refine ⟨h1, fun out h => ?_⟩
  rw [h1] at h
  cases h

/-! ### C5 — unresolvable source back-reference -/

/-- C5 at the claim's failing input: `source_url` is a loop-carried
variable, so a chunk with no SOURCE relationship silently inherits the
previous chunk's source document.  On `[nodeA, nodeB]` — `nodeB` has an
empty relationship dict — the run succeeds (it does not fail loudly), does
not skip `nodeB`, and enriches `nodeB` with `nodeA`'s document text
`"D1"`. -/
theorem stale_source_url_uses_previous_document :
    contextualEnrichment fetchD1 id (fun p => p) [nodeA, nodeB] =
      .ok [Node.mk "n1" "t1" [("context", contextPrompt "D1" "t1")]
          [("NodeRelationship.SOURCE", "u1")],
        Node.mk "n2" "t2" [("context", contextPrompt "D1" "t2")] []] ∧
    ∀ e, contextualEnrichment fetchD1 id (fun p => p) [nodeA, nodeB] ≠
      .error e := by
  have h1 : contextualEnrichment fetchD1 id (fun p => p) [nodeA, nodeB] =
      .ok [Node.mk "n1" "t1" [("context", contextPrompt "D1" "t1")]
          [("NodeRelationship.SOURCE", "u1")],
        Node.mk "n2" "t2" [("context", contextPrompt "D1" "t2")] []] := rfl
  refine ⟨h1, fun e h => ?_⟩
  rw [h1] at h
  cases h

/-! ### C6 — each document fetched at most once; cache append-only -/

/-- C6: within one run the cache is append-only — every enrichment step
only ever extends `web_page_content` at the end, never removing or
replacing an entry — and the log of `requests.get` calls of a completed run
has no duplicates: each source document is fetched at most once, later
chunks sharing a document hit the cache. -/
theorem enrichment_fetches_each_document_at_most_once
    (fetch : String → Except String String) (h2t llm : String → String) :
    (∀ st node n' st', enrichNode fetch h2t llm st node = .ok (n', st') →
        ∃ ext, st'.web_page_content = st.web_page_content ++ ext) ∧
    (∀ nodes out st,
        contextualEnrichmentRun fetch h2t llm nodes = .ok (out, st) →
        st.fetchLog.Nodup) := by
  constructor
  · intro st node n' st' h
    exact processRels_cache_ext fetch h2t node.relationships st st'
      (enrichNode_state fetch h2t llm st node n' st' h).1
  · intro nodes out st h
    exact (enrichGo_inv fetch h2t llm nodes ⟨[], none, []⟩ out st h
      enrichInv_init).1

/-- Witness for C6: two chunks sharing source document `"u1"`; the
completed run's fetch log is `["u1"]` — one fetch, the second chunk hit the
cache — and the first step extended the empty cache by exactly the new
entry. -/
theorem enrichment_fetches_each_document_at_most_once_witness :
    (∃ ext,
      ([("u1", "D1")] : List (String × String)) =
        ([] : List (String × String)) ++ ext) ∧
    (["u1"] : List String).Nodup :=
  ⟨(enrichment_fetches_each_document_at_most_once fetchD1 id
      (fun _ => "c")).1 ⟨[], none, []⟩ nodeA
      (Node.mk "n1" "t1" [("context", "c")]
        [("NodeRelationship.SOURCE", "u1")])
      ⟨[("u1", "D1")], some "u1", ["u1"]⟩ rfl,
    (enrichment_fetches_each_document_at_most_once fetchD1 id
      (fun _ => "c")).2 [nodeA, nodeA2]
      [Node.mk "n1" "t1" [("context", "c")]
        [("NodeRelationship.SOURCE", "u1")],
       Node.mk "n3" "t3" [("context", "c")]
        [("NodeRelationship.SOURCE", "u1")]]
      ⟨[("u1", "D1")], some "u1", ["u1"]⟩ rfl⟩

/-! ### `llama_index_evaluation_print_results`

```python
metric_dicts = []
for eval_result in eval_results:
    metric_dicts.append(eval_result.metric_vals_dict)
full_df = pd.DataFrame(metric_dicts)
return pd.DataFrame({
    "retrievers": [name],
    **{k: [full_df[k].mean()] for k in LLAMA_INDEX_RETRIEVAL_EVALUATION_METRICS},
})
```

A `RetrieverEvaluator` result's `metric_vals_dict` maps each configured
metric name (`hit_rate`, `mrr`, `recall`) to its value. -/

/-- One per-QAPair evaluation result, holding the three configured metric
values. -/
structure RetrievalEvalResult where
  hit_rate : ℚ
  mrr : ℚ
  «recall» : ℚ
  deriving Repr, DecidableEq

/-- `eval_result.metric_vals_dict`: the metric-name → value dict of one
evaluation result. -/
def metric_vals_dict (r : RetrievalEvalResult) : String → Option ℚ :=
  fun k =>
    if k = "hit_rate" then some r.hit_rate
    else if k = "mrr" then some r.mrr
    else if k = "recall" then some r.«recall»
    else none

/-- `full_df[k]`: the column of values the dicts hold under key `k`
(pandas builds a column from the dict entries that have the key). -/
def dfColumn (metric_dicts : List (String → Option ℚ)) (k : String) : List ℚ :=
  metric_dicts.filterMap (fun d => d k)

/-- `Series.mean()`: arithmetic mean of a column. -/
def colMean (xs : List ℚ) : ℚ := xs.sum / xs.length

/-- The returned one-row DataFrame: the `retrievers` column and one column
per metric. -/
structure ResultsFrame where
  retrievers : List String
  cols : List (String × List ℚ)
  deriving Repr, DecidableEq

/-- `llama_index_evaluation_print_results(name, eval_results, metrics)`.
The Python signature defaults `metrics` to
`LLAMA_INDEX_RETRIEVAL_EVALUATION_METRICS`; the parameter is bound here
explicitly.  Note the comprehension iterates over the global
`LLAMA_INDEX_RETRIEVAL_EVALUATION_METRICS`, not over `metrics`. -/
def llama_index_evaluation_print_results (name : String)
    (eval_results : List RetrievalEvalResult) (metrics : List String) :
    ResultsFrame :=
  let metric_dicts := eval_results.map metric_vals_dict
  let full_df := dfColumn metric_dicts
  { retrievers := [name]
    cols := LLAMA_INDEX_RETRIEVAL_EVALUATION_METRICS.map
      (fun k => (k, [colMean (full_df k)])) }

theorem dfColumn_hit_rate (rs : List RetrievalEvalResult) :
    dfColumn (rs.map metric_vals_dict) "hit_rate" =
      rs.map (fun r => r.hit_rate) := by
  induction rs with
  | nil => rfl
  | cons r rest ih => simp [dfColumn, metric_vals_dict, List.filterMap] at ih ⊢ <;> exact ih

theorem dfColumn_mrr (rs : List RetrievalEvalResult) :
    dfColumn (rs.map metric_vals_dict) "mrr" = rs.map (fun r => r.mrr) := by
  induction rs with
  | nil => rfl
  | cons r rest ih => simp [dfColumn, metric_vals_dict, List.filterMap] at ih ⊢ <;> exact ih

theorem dfColumn_recall (rs : List RetrievalEvalResult) :
    dfColumn (rs.map metric_vals_dict) "recall" =
      rs.map (fun r => r.«recall») := by
  induction rs with
  | nil => rfl
  | cons r rest ih => simp [dfColumn, metric_vals_dict, List.filterMap] at ih ⊢ <;> exact ih

/-- C9: for a non-empty evaluation-result list, the function returns
exactly one row, labelled with the retriever's name, and the single cell of
each configured metric column is the arithmetic mean (sum divided by count)
of that metric over all evaluation results. -/
theorem evaluation_print_results_means (name : String)
    (eval_results : List RetrievalEvalResult) (metrics : List String)
    (hne : eval_results ≠ []) :
    (llama_index_evaluation_print_results name eval_results
        metrics).retrievers = [name] ∧
    (llama_index_evaluation_print_results name eval_results metrics).cols =
      [("hit_rate",
          [(eval_results.map (fun r => r.hit_rate)).sum / eval_results.length]),
       ("mrr",
          [(eval_results.map (fun r => r.mrr)).sum / eval_results.length]),
       ("recall",
          [(eval_results.map (fun r => r.«recall»)).sum / eval_results.length])] := by
  refine ⟨rfl, ?_⟩
  simp only [llama_index_evaluation_print_results,
    LLAMA_INDEX_RETRIEVAL_EVALUATION_METRICS, List.map_cons, List.map_nil,
    dfColumn_hit_rate, dfColumn_mrr, dfColumn_recall, colMean]
  simp [List.length_map]

/-- Witness for C9 at two concrete evaluation results. -/
theorem evaluation_print_results_means_witness :
    (llama_index_evaluation_print_results "retriever-original"
        [⟨1, 1, 1⟩, ⟨0, (1 : ℚ)/2, 0⟩] []).retrievers =
      ["retriever-original"] ∧
    (llama_index_evaluation_print_results "retriever-original"
        [⟨1, 1, 1⟩, ⟨0, (1 : ℚ)/2, 0⟩] []).cols =
      [("hit_rate",
          [(([⟨1, 1, 1⟩, ⟨0, (1 : ℚ)/2, 0⟩] :
              List RetrievalEvalResult).map (fun r => r.hit_rate)).sum / 2]),
       ("mrr",
          [(([⟨1, 1, 1⟩, ⟨0, (1 : ℚ)/2, 0⟩] :
              List RetrievalEvalResult).map (fun r => r.mrr)).sum / 2]),
       ("recall",
          [(([⟨1, 1, 1⟩, ⟨0, (1 : ℚ)/2, 0⟩] :
              List RetrievalEvalResult).map (fun r => r.«recall»)).sum / 2])] :=
  evaluation_print_results_means "retriever-original"
    [⟨1, 1, 1⟩, ⟨0, (1 : ℚ)/2, 0⟩] [] (by simp)

/-- C10: the `metrics` parameter has no effect on the result — the metric
columns always come from the global `LLAMA_INDEX_RETRIEVAL_EVALUATION_METRICS`
(`hit_rate`, `mrr`, `recall`), whatever is passed for `metrics`. -/
theorem evaluation_print_results_ignores_metrics_param (name : String)
    (eval_results : List RetrievalEvalResult) (m1 m2 : List String) :
    llama_index_evaluation_print_results name eval_results m1 =
      llama_index_evaluation_print_results name eval_results m2 ∧
    (llama_index_evaluation_print_results name eval_results m1).cols.map
        Prod.fst = LLAMA_INDEX_RETRIEVAL_EVALUATION_METRICS := by
  refine ⟨rfl, ?_⟩
  simp [llama_index_evaluation_print_results,
    LLAMA_INDEX_RETRIEVAL_EVALUATION_METRICS]

end ContextualRetrieval
